import Mathlib

/-!
Verification of the H2O character-device synchronization module
(`src/H2o/h2o-impl.c`).

The module keeps a circular byte buffer `bufferH2O` of `MAX_SIZE` bytes with
indices `in`, `out` and a byte count `size`, plus two particle counters
`hydrogens` and `oxygens`, all guarded by one mutex with three condition
variables `cond`, `waitingMolecule`, `waitingHydrogen`.

We embed the two file operations `readH2O` and `writeH2O` as a small-step
semantics: every maximal code region executed between two condition-variable
waits runs while holding the mutex, so it is one atomic step.  A thread is a
program counter (one constructor per `c_wait` call site, plus entry and exit)
together with the call's arguments.  Steps also record the condition-variable
broadcasts and the final mutex release they perform, so the cleanup paths can
be examined.  An external cancellation of a blocked wait (`c_wait` returning
nonzero, i.e. `-EINTR`) is a separate transition.
-/

namespace H2o

/-- Capacity of `bufferH2O` (`#define MAX_SIZE 8192`). -/
def MAX_SIZE : Nat := 8192

/-- Linux `EINTR` error number; an interrupted call returns `-EINTR`. -/
def EINTR : Int := 4

/-- Linux `EFAULT` error number; a failed user-space copy returns `-EFAULT`. -/
def EFAULT : Int := 14

/-- The shared, mutex-protected module state: the circular buffer with its
`in`/`out` indices and byte count `size`, and the two particle counters.
Counters are C `int`s, embedded as unbounded `Int` (no overflow is reached in
the scenarios considered).  `in` is a Lean keyword, hence `inIdx`/`outIdx`. -/
structure Shared where
  buffer : Nat → Nat
  inIdx : Nat
  outIdx : Nat
  size : Int
  hydrogens : Int
  oxygens : Int

/-- State established by `initH2O`: zeroed buffer (`memset`), all indices and
counters zero. -/
def initShared : Shared :=
  { buffer := fun _ => 0, inIdx := 0, outIdx := 0, size := 0,
    hydrogens := 0, oxygens := 0 }

/-- The three condition variables of the module. -/
inductive CV
  | cond
  | waitingMolecule
  | waitingHydrogen
deriving DecidableEq

/-- Observable synchronization events of one atomic step: `c_broadcast` calls
and the `m_unlock` performed when the operation returns.  (A `c_wait` also
releases the mutex while suspended; that is implicit in parking.) -/
inductive Event
  | bcast (cv : CV)
  | unlock
deriving DecidableEq

/-- The call being executed by a thread: a `readH2O` with its byte budget
`ucount`, or a `writeH2O` with its payload `data`.  `faultAt = some k` models a
user-space buffer whose byte `k` is invalid, making the per-byte
`copy_to_user`/`copy_from_user` fail at loop index `k`; `none` models a fully
valid user buffer. -/
inductive ThreadKind
  | reader (ucount : Nat) (faultAt : Option Nat)
  | writer (data : List Nat) (faultAt : Option Nat)
deriving DecidableEq

/-- Program counter of a thread.  One constructor per `c_wait` call site:
`rWaitH` is the reader's wait on `waitingHydrogen` (line 229), `wGate` the
writer's entry wait on `waitingMolecule` (line 284), `wWaitH` the writer's wait
on `waitingHydrogen` after its copy (line 312), `wWaitO` the writer's wait on
`cond` (line 324).  `done ret received` is a returned call: `ret` is the
`ssize_t` result and `received` the bytes delivered to the reader's buffer. -/
inductive Pc
  | start
  | rWaitH
  | wGate
  | wWaitH
  | wWaitO
  | done (ret : Int) (received : List Nat)
deriving DecidableEq

/-- A thread: the call it executes and where it currently stands. -/
structure Thread where
  kind : ThreadKind
  pc : Pc
deriving DecidableEq

/-- The writer's copy loop (lines 293-304): each byte is stored at `in`, then
`in = (in + 1) % MAX_SIZE` and `size++`.  There is no capacity check. -/
def copyIn : Shared → List Nat → Shared
  | s, [] => s
  | s, b :: rest =>
      copyIn
        { s with
          buffer := fun j => if j = s.inIdx then b else s.buffer j,
          inIdx := (s.inIdx + 1) % MAX_SIZE,
          size := s.size + 1 } rest

/-- The reader's copy loop (lines 244-256): each byte is taken from `out`,
then `out = (out + 1) % MAX_SIZE` and `size--`.  Returns the final state and
the bytes delivered, in order. -/
def copyOut : Shared → Nat → Shared × List Nat
  | s, 0 => (s, [])
  | s, n + 1 =>
      let b := s.buffer s.outIdx
      let s1 : Shared :=
        { s with outIdx := (s.outIdx + 1) % MAX_SIZE, size := s.size - 1 }
      let r := copyOut s1 n
      (r.1, b :: r.2)

/-- Prepend a broadcast to the events of a step result. -/
def withEvent (e : Event) (r : Shared × Pc × List Event) :
    Shared × Pc × List Event :=
  (r.1, r.2.1, e :: r.2.2)

/-- Clamping of the reader's byte budget (lines 238-241): `count` starts as
`ucount` and is lowered to `size` when it exceeds it. -/
def readCount (ucount : Nat) (size : Int) : Int :=
  if (ucount : Int) > size then size else (ucount : Int)

/-- Number of loop iterations the reader's copy loop performs: all
`readCount` iterations, or only the first `k` when `copy_to_user` fails at
iteration `k < readCount`. -/
def readNBytes (ucount : Nat) (size : Int) (faultAt : Option Nat) : Nat :=
  match faultAt with
  | some k => if (k : Int) < readCount ucount size then k
              else (readCount ucount size).toNat
  | none => (readCount ucount size).toNat

/-- The reader's `ssize_t count` at the `finally` block: `-EFAULT` when the
copy loop aborted, the clamped count otherwise. -/
def readRet (ucount : Nat) (size : Int) (faultAt : Option Nat) : Int :=
  match faultAt with
  | some k => if (k : Int) < readCount ucount size then -EFAULT
              else readCount ucount size
  | none => readCount ucount size

/-- `readH2O` lines 238-266, executed once `hydrogens >= 2`: clamp `count` to
`size`, run the copy loop — which advances `out` and decrements `size` once
per completed iteration, so a `copy_to_user` failure at iteration `k` leaves
the first `k` bytes consumed — then the `finally` block broadcasts `cond` and
unlocks on every exit. -/
def readFinish (s : Shared) (ucount : Nat) (faultAt : Option Nat) :
    Shared × Pc × List Event :=
  let r := copyOut s (readNBytes ucount s.size faultAt)
  (r.1, Pc.done (readRet ucount s.size faultAt) r.2,
   [Event.bcast CV.cond, Event.unlock])

/-- `writeH2O` lines 333-338 followed by the `finally` block (lines 340-345):
if `hydrogens > 0 && oxygens > 0`, decrement both (by one each) and broadcast
`waitingMolecule`; in all cases unlock and return `count`.  The writer's
`finally` performs no broadcast. -/
def writePair (s : Shared) (c : Int) : Shared × Pc × List Event :=
  if 0 < s.hydrogens ∧ 0 < s.oxygens then
    ({ s with hydrogens := s.hydrogens - 1, oxygens := s.oxygens - 1 },
     Pc.done c [], [Event.bcast CV.waitingMolecule, Event.unlock])
  else
    (s, Pc.done c [], [Event.unlock])

/-- `writeH2O` loop at lines 320-332, at a guard check: while `oxygens < 1`
the writer waits on `cond`; otherwise it falls through to the pairing check. -/
def writeOxyGate (s : Shared) (c : Int) : Shared × Pc × List Event :=
  if s.oxygens < 1 then (s, Pc.wWaitO, []) else writePair s c

/-- `writeH2O` loop at lines 308-319, at a guard check: while `hydrogens < 2`
the writer waits on `waitingHydrogen`; otherwise it moves to the oxygen
loop. -/
def writeHGate (s : Shared) (c : Int) : Shared × Pc × List Event :=
  if s.hydrogens < 2 then (s, Pc.wWaitH, []) else writeOxyGate s c

/-- A writer waking from its wait on `cond` (line 324): the loop body first
broadcasts `cond` (line 331), then the guard `oxygens < 1` is re-checked. -/
def writeOxyWake (s : Shared) (c : Int) : Shared × Pc × List Event :=
  withEvent (Event.bcast CV.cond) (writeOxyGate s c)

/-- `writeH2O` lines 305-319 after a completed copy: `hydrogens++`, broadcast
`waitingHydrogen`, then enter the `hydrogens < 2` loop. -/
def writeAfterCopy (s : Shared) (c : Int) : Shared × Pc × List Event :=
  withEvent (Event.bcast CV.waitingHydrogen)
    (writeHGate { s with hydrogens := s.hydrogens + 1 } c)

/-- `writeH2O` lines 293-306 once past the entry gate: the copy loop (an
invalid source byte at index `k < count` aborts with `-EFAULT` after `k` bytes,
skipping the `hydrogens++`), then `writeAfterCopy`. -/
def writeCopyPhase (s : Shared) (data : List Nat) (faultAt : Option Nat) :
    Shared × Pc × List Event :=
  match faultAt with
  | some k =>
      if k < data.length then
        (copyIn s (data.take k), Pc.done (-EFAULT) [], [Event.unlock])
      else writeAfterCopy (copyIn s data) (data.length : Int)
  | none => writeAfterCopy (copyIn s data) (data.length : Int)

/-- `writeH2O` at its entry gate (lines 280-291), also re-run when waking from
the wait on `waitingMolecule`: while `hydrogens >= 2` the writer waits;
otherwise the copy phase runs. -/
def writeEnter (s : Shared) (data : List Nat) (faultAt : Option Nat) :
    Shared × Pc × List Event :=
  if 2 ≤ s.hydrogens then (s, Pc.wGate, [])
  else writeCopyPhase s data faultAt

/-- `readH2O` at its entry (lines 218-236): under the lock, `oxygens++`, then
the `hydrogens < 2` loop is entered — park on `waitingHydrogen` — or skipped,
in which case the copy and the `finally` block run. -/
def readEnter (s : Shared) (ucount : Nat) (faultAt : Option Nat) :
    Shared × Pc × List Event :=
  let s1 := { s with oxygens := s.oxygens + 1 }
  if s1.hydrogens < 2 then (s1, Pc.rWaitH, []) else readFinish s1 ucount faultAt

/-- A reader waking from its wait on `waitingHydrogen` (line 229): the guard
`hydrogens < 2` is re-checked; on failure the reader parks again. -/
def readWake (s : Shared) (ucount : Nat) (faultAt : Option Nat) :
    Shared × Pc × List Event :=
  if s.hydrogens < 2 then (s, Pc.rWaitH, []) else readFinish s ucount faultAt

/-- Install the program counter computed by a phase function back into the
thread. -/
def pack (t : Thread) (r : Shared × Pc × List Event) :
    Shared × Thread × List Event :=
  (r.1, { t with pc := r.2.1 }, r.2.2)

/-- One atomic step of a thread holding the mutex: from `start` it runs the
operation's entry code up to the first wait or to completion; from a parked
program counter it re-checks the guard (the loops tolerate spurious wakeups,
so a step from a parked state is always allowed) and either re-parks or
continues.  A `done` thread does not step. -/
def threadStep (s : Shared) (t : Thread) : Shared × Thread × List Event :=
  match t.kind, t.pc with
  | ThreadKind.reader u f, Pc.start => pack t (readEnter s u f)
  | ThreadKind.reader u f, Pc.rWaitH => pack t (readWake s u f)
  | ThreadKind.writer d f, Pc.start => pack t (writeEnter s d f)
  | ThreadKind.writer d f, Pc.wGate => pack t (writeEnter s d f)
  | ThreadKind.writer d _, Pc.wWaitH => pack t (writeHGate s (d.length : Int))
  | ThreadKind.writer d _, Pc.wWaitO => pack t (writeOxyWake s (d.length : Int))
  | _, _ => (s, t, [])

/-- External cancellation of a blocked wait: `c_wait` returns nonzero and the
code jumps to `finally` with `count = -EINTR`.  The reader's `finally`
(lines 259-266) broadcasts `cond` and unlocks; the writer's `finally`
(lines 340-345) only unlocks.  No shared variable is touched on this path. -/
def interruptStep (s : Shared) (t : Thread) : Shared × Thread × List Event :=
  match t.pc with
  | Pc.rWaitH =>
      (s, { t with pc := Pc.done (-EINTR) [] },
       [Event.bcast CV.cond, Event.unlock])
  | Pc.wGate => (s, { t with pc := Pc.done (-EINTR) [] }, [Event.unlock])
  | Pc.wWaitH => (s, { t with pc := Pc.done (-EINTR) [] }, [Event.unlock])
  | Pc.wWaitO => (s, { t with pc := Pc.done (-EINTR) [] }, [Event.unlock])
  | _ => (s, t, [])

/-- A system: the shared module state and the pool of client threads. -/
structure Sys where
  shared : Shared
  threads : List Thread

/-- A scheduler action: let thread `i` take its next atomic step, or deliver a
cancellation signal to thread `i` while it is blocked. -/
inductive Act
  | run (i : Nat)
  | intr (i : Nat)

/-- Apply one scheduler action.  Nonexistent indices and `done` threads leave
the system unchanged. -/
def applyAct (sys : Sys) : Act → Sys
  | Act.run i =>
      match sys.threads[i]? with
      | none => sys
      | some t =>
          let r := threadStep sys.shared t
          { shared := r.1, threads := sys.threads.set i r.2.1 }
  | Act.intr i =>
      match sys.threads[i]? with
      | none => sys
      | some t =>
          let r := interruptStep sys.shared t
          { shared := r.1, threads := sys.threads.set i r.2.1 }

/-- Initial system for a pool of calls: freshly initialized module, every call
at its entry point. -/
def startSys (ks : List ThreadKind) : Sys :=
  { shared := initShared,
    threads := ks.map (fun k => { kind := k, pc := Pc.start }) }

/-- The system state reached from `startSys ks` by a finite schedule.  Every
interleaving of `readH2O`/`writeH2O` calls (including cancellations) is some
`reach ks acts`. -/
def reach (ks : List ThreadKind) (acts : List Act) : Sys :=
  acts.foldl applyAct (startSys ks)

/-! ### Basic lemmas about the copy loops -/

theorem copyIn_hydrogens (l : List Nat) (s : Shared) :
    (copyIn s l).hydrogens = s.hydrogens := by
  induction l generalizing s with
  | nil => rfl
  | cons b rest ih => simp [copyIn, ih]

theorem copyIn_oxygens (l : List Nat) (s : Shared) :
    (copyIn s l).oxygens = s.oxygens := by
  induction l generalizing s with
  | nil => rfl
  | cons b rest ih => simp [copyIn, ih]

theorem copyIn_size (l : List Nat) (s : Shared) :
    (copyIn s l).size = s.size + l.length := by
  induction l generalizing s with
  | nil => simp [copyIn]
  | cons b rest ih =>
      simp [copyIn, ih]
      omega

theorem copyIn_buffer_of_nil (s : Shared) : (copyIn s []).buffer = s.buffer := rfl

theorem copyOut_hydrogens (n : Nat) (s : Shared) :
    (copyOut s n).1.hydrogens = s.hydrogens := by
  induction n generalizing s with
  | zero => rfl
  | succ m ih => simp [copyOut, ih]

theorem copyOut_oxygens (n : Nat) (s : Shared) :
    (copyOut s n).1.oxygens = s.oxygens := by
  induction n generalizing s with
  | zero => rfl
  | succ m ih => simp [copyOut, ih]

/-! ### The counter invariant (claim C9) -/

/-- The particle counters are never negative. -/
def CountInv (s : Shared) : Prop := 0 ≤ s.hydrogens ∧ 0 ≤ s.oxygens

theorem readFinish_countInv (s : Shared) (u : Nat) (f : Option Nat)
    (h : CountInv s) : CountInv (readFinish s u f).1 := by
  have base : ∀ m : Nat, CountInv (copyOut s m).1 := fun m =>
    ⟨by rw [copyOut_hydrogens]; exact h.1, by rw [copyOut_oxygens]; exact h.2⟩
  exact base (readNBytes u s.size f)

theorem writePair_countInv (s : Shared) (c : Int) (h : CountInv s) :
    CountInv (writePair s c).1 := by
  obtain ⟨h1, h2⟩ := h
  unfold writePair
  split
  · rename_i hc
    obtain ⟨ha, hb⟩ := hc
    exact ⟨by show (0:Int) ≤ s.hydrogens - 1; omega,
           by show (0:Int) ≤ s.oxygens - 1; omega⟩
  · exact ⟨h1, h2⟩

theorem writeOxyGate_countInv (s : Shared) (c : Int) (h : CountInv s) :
    CountInv (writeOxyGate s c).1 := by
  unfold writeOxyGate
  split
  · exact h
  · exact writePair_countInv s c h

theorem writeHGate_countInv (s : Shared) (c : Int) (h : CountInv s) :
    CountInv (writeHGate s c).1 := by
  unfold writeHGate
  split
  · exact h
  · exact writeOxyGate_countInv s c h

theorem writeAfterCopy_countInv (s : Shared) (c : Int) (h : CountInv s) :
    CountInv (writeAfterCopy s c).1 := by
  show CountInv (writeHGate { s with hydrogens := s.hydrogens + 1 } c).1
  exact writeHGate_countInv _ c
    ⟨by show (0:Int) ≤ s.hydrogens + 1; have := h.1; omega, h.2⟩

theorem writeCopyPhase_countInv (s : Shared) (d : List Nat) (f : Option Nat)
    (h : CountInv s) : CountInv (writeCopyPhase s d f).1 := by
  have hc : ∀ l, CountInv (copyIn s l) := fun l =>
    ⟨by rw [copyIn_hydrogens]; exact h.1, by rw [copyIn_oxygens]; exact h.2⟩
  rcases f with _ | k
  · exact writeAfterCopy_countInv _ _ (hc d)
  · by_cases hk : k < d.length
    · rw [writeCopyPhase, if_pos hk]
      exact hc _
    · rw [writeCopyPhase, if_neg hk]
      exact writeAfterCopy_countInv _ _ (hc d)

theorem writeEnter_countInv (s : Shared) (d : List Nat) (f : Option Nat)
    (h : CountInv s) : CountInv (writeEnter s d f).1 := by
  unfold writeEnter
  split
  · exact h
  · exact writeCopyPhase_countInv s d f h

theorem readEnter_countInv (s : Shared) (u : Nat) (f : Option Nat)
    (h : CountInv s) : CountInv (readEnter s u f).1 := by
  have h1 : CountInv { s with oxygens := s.oxygens + 1 } :=
    ⟨h.1, by show (0:Int) ≤ s.oxygens + 1; have := h.2; omega⟩
  simp only [readEnter]
  split
  · exact h1
  · exact readFinish_countInv _ u f h1

theorem readWake_countInv (s : Shared) (u : Nat) (f : Option Nat)
    (h : CountInv s) : CountInv (readWake s u f).1 := by
  unfold readWake
  split
  · exact h
  · exact readFinish_countInv _ u f h

theorem writeOxyWake_countInv (s : Shared) (c : Int) (h : CountInv s) :
    CountInv (writeOxyWake s c).1 := by
  show CountInv (writeOxyGate s c).1
  exact writeOxyGate_countInv s c h

theorem threadStep_countInv (s : Shared) (t : Thread) (h : CountInv s) :
    CountInv (threadStep s t).1 := by
  obtain ⟨k, pc⟩ := t
  cases k <;> cases pc <;>
    first
      | exact h
      | exact readEnter_countInv s _ _ h
      | exact readWake_countInv s _ _ h
      | exact writeEnter_countInv s _ _ h
      | exact writeHGate_countInv s _ h
      | exact writeOxyWake_countInv s _ h

theorem interruptStep_shared (s : Shared) (t : Thread) :
    (interruptStep s t).1 = s := by
  obtain ⟨k, pc⟩ := t
  cases pc <;> rfl

theorem applyAct_countInv (sys : Sys) (a : Act) (h : CountInv sys.shared) :
    CountInv (applyAct sys a).shared := by
  rcases a with i | i
  · show CountInv (match sys.threads[i]? with
      | none => sys
      | some t =>
          { shared := (threadStep sys.shared t).1,
            threads := sys.threads.set i (threadStep sys.shared t).2.1 }).shared
    rcases sys.threads[i]? with _ | t
    · exact h
    · exact threadStep_countInv sys.shared t h
  · show CountInv (match sys.threads[i]? with
      | none => sys
      | some t =>
          { shared := (interruptStep sys.shared t).1,
            threads := sys.threads.set i (interruptStep sys.shared t).2.1 }).shared
    rcases sys.threads[i]? with _ | t
    · exact h
    · show CountInv (interruptStep sys.shared t).1
      rw [interruptStep_shared]
      exact h

theorem foldl_applyAct_countInv (acts : List Act) (sys : Sys)
    (h : CountInv sys.shared) : CountInv (acts.foldl applyAct sys).shared := by
  induction acts generalizing sys with
  | nil => exact h
  | cons a rest ih => exact ih _ (applyAct_countInv sys a h)

/-- C9: in every state reachable from a fresh module by any pool of
`writeH2O`/`readH2O` calls under any schedule — including calls that are
cancelled (`-EINTR`) or hit a user-copy fault (`-EFAULT`) — the counters
`hydrogens` and `oxygens` are nonnegative: `oxygens` only ever grows except
for the guarded pairing decrement, and `hydrogens` rises by one per completed
copy and falls only under the same `hydrogens > 0 && oxygens > 0` guard. -/
theorem C9_counters_nonneg (ks : List ThreadKind) (acts : List Act) :
    0 ≤ (reach ks acts).shared.hydrogens ∧
      0 ≤ (reach ks acts).shared.oxygens :=
  foldl_applyAct_countInv acts (startSys ks) ⟨le_refl 0, le_refl 0⟩

/-! ### The circular-buffer contents invariant -/

/-- Relation between the module state and the logical stream `pending` of
bytes written but not yet read: `size` counts them, they fit the capacity,
`in` is `out` shifted by their number, and the buffer cells starting at `out`
hold them in FIFO order. -/
def BufInv (s : Shared) (pending : List Nat) : Prop :=
  s.outIdx < MAX_SIZE ∧
  s.size = (pending.length : Int) ∧
  pending.length ≤ MAX_SIZE ∧
  s.inIdx = (s.outIdx + pending.length) % MAX_SIZE ∧
  ∀ j, j < pending.length →
    s.buffer ((s.outIdx + j) % MAX_SIZE) = pending.getD j 0

instance (s : Shared) (pending : List Nat) : Decidable (BufInv s pending) := by
  unfold BufInv
  exact inferInstance

theorem copyOut_succ (s : Shared) (n : Nat) :
    copyOut s (n + 1) =
      ((copyOut { s with outIdx := (s.outIdx + 1) % MAX_SIZE,
                         size := s.size - 1 } n).1,
       s.buffer s.outIdx ::
         (copyOut { s with outIdx := (s.outIdx + 1) % MAX_SIZE,
                           size := s.size - 1 } n).2) := rfl

theorem copyIn_cons (s : Shared) (b : Nat) (rest : List Nat) :
    copyIn s (b :: rest) =
      copyIn { s with buffer := fun j => if j = s.inIdx then b else s.buffer j,
                      inIdx := (s.inIdx + 1) % MAX_SIZE,
                      size := s.size + 1 } rest := rfl

theorem getD_append_lt (l l' : List Nat) (j : Nat) (hj : j < l.length) :
    (l ++ l').getD j 0 = l.getD j 0 := by
  induction l generalizing j with
  | nil => simp at hj
  | cons a t ih =>
      cases j with
      | zero => simp
      | succ m => simpa using ih m (by simpa using hj)

theorem getD_append_length (l l' : List Nat) (b : Nat) :
    (l ++ b :: l').getD l.length 0 = b := by
  induction l with
  | nil => simp
  | cons a t ih => simpa using ih

/-- The reader's copy loop delivers the `n` oldest unread bytes in FIFO order
and leaves the invariant holding for the remaining stream. -/
theorem copyOut_spec (n : Nat) (s : Shared) (pending : List Nat)
    (hinv : BufInv s pending) (hn : n ≤ pending.length) :
    (copyOut s n).2 = pending.take n ∧
      BufInv (copyOut s n).1 (pending.drop n) := by
  induction n generalizing s pending with
  | zero => exact ⟨by simp [copyOut], by simpa using hinv⟩
  | succ m ih =>
      obtain ⟨ho, hs, hl, hi, hb⟩ := hinv
      rcases pending with _ | ⟨p, rest⟩
      · simp at hn
      · have hlen : rest.length + 1 ≤ MAX_SIZE := by simpa using hl
        have hmaxpos : 0 < MAX_SIZE := by decide
        have hhead : s.buffer s.outIdx = p := by
          have h0 := hb 0 (by simp)
          rwa [Nat.add_zero, Nat.mod_eq_of_lt ho] at h0
        have hinv1 : BufInv
            { s with outIdx := (s.outIdx + 1) % MAX_SIZE, size := s.size - 1 }
            rest := by
          refine ⟨Nat.mod_lt _ hmaxpos, ?_, by omega, ?_, ?_⟩
          · have : s.size = (rest.length : Int) + 1 := by
              rw [hs]; simp only [List.length_cons]; push_cast; ring
            rw [this]; ring
          · show s.inIdx = ((s.outIdx + 1) % MAX_SIZE + rest.length) % MAX_SIZE
            rw [Nat.mod_add_mod]
            have harith : s.outIdx + 1 + rest.length =
                s.outIdx + (rest.length + 1) := by omega
            rw [harith]
            simpa using hi
          · intro j hj
            show s.buffer (((s.outIdx + 1) % MAX_SIZE + j) % MAX_SIZE) = _
            rw [Nat.mod_add_mod]
            have harith : s.outIdx + 1 + j = s.outIdx + (j + 1) := by omega
            rw [harith]
            have := hb (j + 1) (by simpa using Nat.succ_lt_succ hj)
            simpa using this
        have ihm := ih _ rest hinv1 (by simpa using hn)
        rw [copyOut_succ]
        refine ⟨?_, ihm.2⟩
        simp only [List.take_succ_cons]
        rw [hhead, ihm.1]

/-- The writer's copy loop appends its bytes to the unread stream, preserving
the invariant, as long as the stream stays within the buffer capacity.  (With
more than `MAX_SIZE` pending bytes `writeH2O` overwrites unread cells: the
invariant's capacity bound is genuinely needed.) -/
theorem copyIn_spec (data : List Nat) (s : Shared) (pending : List Nat)
    (hinv : BufInv s pending) (hcap : pending.length + data.length ≤ MAX_SIZE) :
    BufInv (copyIn s data) (pending ++ data) := by
  induction data generalizing s pending with
  | nil => simpa using hinv
  | cons b rest ih =>
      obtain ⟨ho, hs, hl, hi, hb⟩ := hinv
      simp only [List.length_cons] at hcap
      have hlt : pending.length < MAX_SIZE := by omega
      have hlen1 : (pending ++ [b]).length ≤ MAX_SIZE := by
        simp only [List.length_append, List.length_cons, List.length_nil]
        omega
      have hinv1 : BufInv
          { s with buffer := fun j => if j = s.inIdx then b else s.buffer j,
                   inIdx := (s.inIdx + 1) % MAX_SIZE, size := s.size + 1 }
          (pending ++ [b]) := by
        refine ⟨ho, ?_, hlen1, ?_, ?_⟩
        · show s.size + 1 = ((pending ++ [b]).length : Int)
          rw [hs]; simp
        · show (s.inIdx + 1) % MAX_SIZE =
            (s.outIdx + (pending ++ [b]).length) % MAX_SIZE
          rw [hi, Nat.mod_add_mod]
          congr 1
          simp
          omega
        · intro j hj
          simp only [List.length_append, List.length_cons,
            List.length_nil] at hj
          by_cases hjl : j < pending.length
          · have hne : (s.outIdx + j) % MAX_SIZE ≠
                (s.outIdx + pending.length) % MAX_SIZE := by
              simp only [MAX_SIZE] at hlt ⊢
              omega
            show (if (s.outIdx + j) % MAX_SIZE = s.inIdx then b
                  else s.buffer ((s.outIdx + j) % MAX_SIZE)) = _
            rw [if_neg (by rw [hi]; exact hne), hb j hjl,
              getD_append_lt _ _ _ hjl]
          · have hjeq : j = pending.length := by omega
            subst hjeq
            show (if (s.outIdx + pending.length) % MAX_SIZE = s.inIdx then b
                  else s.buffer ((s.outIdx + pending.length) % MAX_SIZE)) = _
            rw [if_pos (by rw [hi]), getD_append_length]
      have hcap1 : (pending ++ [b]).length + rest.length ≤ MAX_SIZE := by
        simp only [List.length_append, List.length_cons, List.length_nil]
        omega
      have := ih _ (pending ++ [b]) hinv1 hcap1
      rw [copyIn_cons]
      simpa using this

/-! ### Closed forms for the writer's post-copy path -/

/-- When the copy completed a pair (`hydrogens` was 1 before the increment)
and an oxygen request is registered, the writer falls through both wait loops
and performs the pairing decrement before returning. -/
theorem writeAfterCopy_eq_pair (s : Shared) (c : Int)
    (hh : s.hydrogens = 1) (ho : 1 ≤ s.oxygens) :
    writeAfterCopy s c =
      ({ s with hydrogens := s.hydrogens, oxygens := s.oxygens - 1 },
       Pc.done c [],
       [Event.bcast CV.waitingHydrogen, Event.bcast CV.waitingMolecule,
        Event.unlock]) := by
  unfold writeAfterCopy withEvent writeHGate writeOxyGate writePair
  rw [if_neg (show ¬(({ s with hydrogens := s.hydrogens + 1 } :
        Shared).hydrogens < 2) by simp; omega),
      if_neg (show ¬(({ s with hydrogens := s.hydrogens + 1 } :
        Shared).oxygens < 1) by simp; omega),
      if_pos (show 0 < ({ s with hydrogens := s.hydrogens + 1} :
          Shared).hydrogens ∧
        0 < ({ s with hydrogens := s.hydrogens + 1 } : Shared).oxygens by
          constructor <;> simp <;> omega)]
  simp only [Prod.mk.injEq, Shared.mk.injEq, List.cons.injEq, and_true,
    true_and]
  omega

/-- When the increment does not yet complete a pair, the writer parks on
`waitingHydrogen` right after its copy. -/
theorem writeAfterCopy_eq_waitH (s : Shared) (c : Int)
    (hh : s.hydrogens + 1 < 2) :
    writeAfterCopy s c =
      ({ s with hydrogens := s.hydrogens + 1 }, Pc.wWaitH,
       [Event.bcast CV.waitingHydrogen]) := by
  unfold writeAfterCopy withEvent writeHGate
  rw [if_pos (show ({ s with hydrogens := s.hydrogens + 1 } :
      Shared).hydrogens < 2 by simp; omega)]

/-- When the pair is complete but no oxygen request is registered, the writer
parks on `cond` right after its copy. -/
theorem writeAfterCopy_eq_waitO (s : Shared) (c : Int)
    (hh : ¬(s.hydrogens + 1 < 2)) (ho : s.oxygens < 1) :
    writeAfterCopy s c =
      ({ s with hydrogens := s.hydrogens + 1 }, Pc.wWaitO,
       [Event.bcast CV.waitingHydrogen]) := by
  unfold writeAfterCopy withEvent writeHGate writeOxyGate
  rw [if_neg (show ¬(({ s with hydrogens := s.hydrogens + 1 } :
        Shared).hydrogens < 2) by simp; omega),
      if_pos (show ({ s with hydrogens := s.hydrogens + 1 } :
        Shared).oxygens < 1 by simp; omega)]

/-- A `writeH2O` whose entry gate passes (`hydrogens < 2`) and whose user
buffer is fully valid runs its copy and proceeds to the post-copy path. -/
theorem writeEnter_eq_afterCopy (s : Shared) (data : List Nat)
    (hh : s.hydrogens < 2) :
    writeEnter s data none =
      writeAfterCopy (copyIn s data) (data.length : Int) := by
  unfold writeEnter
  rw [if_neg (by omega)]
  rfl

/-! ### Concrete scenarios -/

/-- The spec §8 molecule scenario: `submitHydrogen('x')`, `submitHydrogen('y')`
(bytes 120 and 121), then `requestMolecule(2)`. -/
def ksMolecule : List ThreadKind :=
  [ThreadKind.writer [120] none, ThreadKind.writer [121] none,
   ThreadKind.reader 2 none]

/-- Schedule up to the read's return: both writers copy their byte and park
(the first on `waitingHydrogen`, the second on `cond`), then the reader runs
to completion. -/
def actsToRead : List Act := [Act.run 0, Act.run 1, Act.run 2]

/-- Full schedule: after the read returns, both parked writers take their
wake step.  (The wake order does not matter: either way exactly one writer
passes the pairing check and the other parks on `cond` again.) -/
def actsAll : List Act :=
  [Act.run 0, Act.run 1, Act.run 2, Act.run 0, Act.run 1]

/-- Same scenario but with a read budget of one byte. -/
def ksTrunc : List ThreadKind :=
  [ThreadKind.writer [120] none, ThreadKind.writer [121] none,
   ThreadKind.reader 1 none]

/-- Two zero-byte writes followed by a read with a five-byte budget. -/
def ksZero : List ThreadKind :=
  [ThreadKind.writer [] none, ThreadKind.writer [] none,
   ThreadKind.reader 5 none]

/-!
### Claim theorems
-/

/-- C1 (code divergence): in the run `writeH2O("x")`, `writeH2O("y")`,
`readH2O(2)`, the read returns its 2 bytes with `hydrogens` still 2 and
`oxygens` still 1 — `readH2O` performs no decrement at all — and after the
parked writers resume, the counters settle at `hydrogens = 1`, `oxygens = 0`
instead of returning to their prior values `0, 0`.  The only decrement in the
module is `writeH2O`'s single `hydrogens--; oxygens--` (lines 333-338). -/
theorem C1_read_decrements_nothing :
    ((reach ksMolecule actsToRead).threads[2]?).map Thread.pc
        = some (Pc.done 2 [120, 121]) ∧
    (reach ksMolecule actsToRead).shared.hydrogens = 2 ∧
    (reach ksMolecule actsToRead).shared.oxygens = 1 ∧
    (reach ksMolecule actsAll).shared.hydrogens = 1 ∧
    (reach ksMolecule actsAll).shared.oxygens = 0 := by
  decide

/-- C2 (code divergence): in the same run, the read returns its data while
both `writeH2O` calls are still blocked inside the module (zero completed
submissions, not "at least two"), and over the whole run only one hydrogen is
spent from the counter per successful request, not exactly two. -/
theorem C2_read_returns_before_writes_complete :
    ((reach ksMolecule actsToRead).threads[2]?).map Thread.pc
        = some (Pc.done 2 [120, 121]) ∧
    ((reach ksMolecule actsToRead).threads[0]?).map Thread.pc
        = some Pc.wWaitH ∧
    ((reach ksMolecule actsToRead).threads[1]?).map Thread.pc
        = some Pc.wWaitO ∧
    (reach ksMolecule actsAll).shared.hydrogens = 1 := by
  decide

/-- The oversized payload: `MAX_SIZE + 1` zero bytes in one `writeH2O`
call. -/
def bigWrite : List Nat := List.replicate (MAX_SIZE + 1) 0

theorem reach_single_writer (d : List Nat) :
    (reach [ThreadKind.writer d none] [Act.run 0]).shared
      = (writeEnter initShared d none).1 := rfl

/-- On a fresh module, one `writeH2O` call of any payload ends with `size`
equal to the full payload length: no truncation, no capacity check. -/
theorem reach_write_size (d : List Nat) :
    (reach [ThreadKind.writer d none] [Act.run 0]).shared.size
      = (d.length : Int) := by
  rw [reach_single_writer, writeEnter_eq_afterCopy _ _ (by decide),
    writeAfterCopy_eq_waitH _ _ (by rw [copyIn_hydrogens]; decide)]
  show (copyIn initShared d).size = (d.length : Int)
  rw [copyIn_size]
  show (0 : Int) + _ = _
  ring

/-- C3 (code divergence): a single `writeH2O` call of `MAX_SIZE + 1` bytes on
a fresh module passes the entry gate (`hydrogens = 0 < 2`), copies every byte
with no capacity check, and leaves `size = MAX_SIZE + 1 > MAX_SIZE`,
violating `0 ≤ size ≤ capacity` (and wrapping `in` past `out`, overwriting
the oldest unread cell). -/
theorem C3_write_overflows_capacity :
    (reach [ThreadKind.writer bigWrite none] [Act.run 0]).shared.size
        = (MAX_SIZE : Int) + 1 ∧
    ¬((reach [ThreadKind.writer bigWrite none] [Act.run 0]).shared.size
        ≤ (MAX_SIZE : Int)) := by
  have h := reach_write_size bigWrite
  have hlen : (bigWrite.length : Int) = (MAX_SIZE : Int) + 1 := by
    show (((List.replicate (MAX_SIZE + 1) 0).length : Nat) : Int) = _
    rw [List.length_replicate]
    push_cast
    ring
  rw [hlen] at h
  exact ⟨h, by rw [h]; decide⟩

/-- C4 counterexample: in the scenario `writeH2O("x")`, `writeH2O("y")`,
`readH2O(1)`, the read succeeds (returns 1) but delivers only `"x"` — a
strict prefix of the two submissions' concatenation `"xy"`, refuting "returns
exactly the concatenation of the two most recently completed submissions'
payloads". -/
theorem C4_counterexample_truncated_read :
    ((reach ksTrunc actsToRead).threads[2]?).map Thread.pc
        = some (Pc.done 1 [120]) ∧
    ([120] : List Nat) ≠ [120, 121] := by
  decide

/-- C4 (amended): a successful `readH2O` returns the oldest
buffered-but-unread bytes in FIFO submission order — the first
`min maxLen size` bytes of the pending stream, never reordered or
interleaved, though possibly a strict prefix of it — and leaves the buffer
invariant holding for the remaining stream. -/
theorem C4_amended_fifo_read (s : Shared) (pending : List Nat) (u : Nat)
    (hinv : BufInv s pending) (hh : 2 ≤ s.hydrogens) :
    (threadStep s ⟨ThreadKind.reader u none, Pc.rWaitH⟩).2.1.pc
        = Pc.done ((min u pending.length : Nat) : Int)
            (pending.take (min u pending.length)) ∧
    BufInv (threadStep s ⟨ThreadKind.reader u none, Pc.rWaitH⟩).1
        (pending.drop (min u pending.length)) := by
  have hs : s.size = (pending.length : Int) := hinv.2.1
  have hn : readNBytes u s.size none = min u pending.length := by
    simp only [readNBytes, readCount, hs]
    split
    · next h => simp; omega
    · next h => simp; omega
  have hr : readRet u s.size none = ((min u pending.length : Nat) : Int) := by
    simp only [readRet, readCount, hs]
    split
    · next h => push_cast; omega
    · next h => push_cast; omega
  have hw : readWake s u none = readFinish s u none := by
    unfold readWake
    rw [if_neg (by omega)]
  have hco := copyOut_spec (min u pending.length) s pending hinv
    (Nat.min_le_right _ _)
  constructor
  · show (readWake s u none).2.1 = _
    rw [hw]
    show Pc.done (readRet u s.size none)
        (copyOut s (readNBytes u s.size none)).2 = _
    rw [hr, hn, hco.1]
  · show BufInv (readWake s u none).1 _
    rw [hw]
    show BufInv (copyOut s (readNBytes u s.size none)).1 _
    rw [hn]
    exact hco.2

/-- A state holding the two scenario bytes unread, with a complete pair of
hydrogens and a registered oxygen request. -/
def sW : Shared :=
  { buffer := fun j => if j = 0 then 120 else if j = 1 then 121 else 0,
    inIdx := 2, outIdx := 0, size := 2, hydrogens := 2, oxygens := 1 }

/-- Witness for `C4_amended_fifo_read` at the concrete state `sW` with a
one-byte budget. -/
theorem C4_amended_fifo_read_witness :
    (BufInv sW [120, 121] ∧ 2 ≤ sW.hydrogens) ∧
    ((threadStep sW ⟨ThreadKind.reader 1 none, Pc.rWaitH⟩).2.1.pc
        = Pc.done ((min 1 ([120, 121] : List Nat).length : Nat) : Int)
            (([120, 121] : List Nat).take
              (min 1 ([120, 121] : List Nat).length)) ∧
     BufInv (threadStep sW ⟨ThreadKind.reader 1 none, Pc.rWaitH⟩).1
        (([120, 121] : List Nat).drop
          (min 1 ([120, 121] : List Nat).length))) :=
  ⟨⟨by decide, by decide⟩,
   C4_amended_fifo_read sW [120, 121] 1 (by decide) (by decide)⟩

/-- C5 counterexample: on a fresh module, `writeH2O("x")` copies its byte and
then parks on `waitingHydrogen` — it does not return — and when it wakes with
no other activity it parks again, refuting "copies, increments, wakes, and
then returns ... otherwise does not block again after the copy". -/
theorem C5_counterexample_write_blocks :
    (writeEnter initShared [120] none).2.1 = Pc.wWaitH ∧
    (writeEnter initShared [120] none).2.1 ≠ Pc.done 1 [] ∧
    (threadStep (writeEnter initShared [120] none).1
        ⟨ThreadKind.writer [120] none, Pc.wWaitH⟩).2.1.pc = Pc.wWaitH := by
  decide

/-- C5 (amended): a `writeH2O` that finds `hydrogens < 2` at entry copies its
bytes, increments `hydrogens`, and broadcasts `waitingHydrogen`; it returns
without blocking again only when this submission completes a pair
(`hydrogens` was 1) and an oxygen request is already registered, running the
pairing step before returning; otherwise it blocks after the copy — on
`waitingHydrogen` when the pair is incomplete, on `cond` when no oxygen
request waits. -/
theorem C5_amended_write_path (s : Shared) (data : List Nat)
    (hh : s.hydrogens < 2) :
    (s.hydrogens = 1 ∧ 1 ≤ s.oxygens →
      writeEnter s data none =
        ({ copyIn s data with
            hydrogens := (copyIn s data).hydrogens,
            oxygens := (copyIn s data).oxygens - 1 },
         Pc.done (data.length : Int) [],
         [Event.bcast CV.waitingHydrogen, Event.bcast CV.waitingMolecule,
          Event.unlock])) ∧
    (s.hydrogens ≠ 1 →
      writeEnter s data none =
        ({ copyIn s data with
           hydrogens := (copyIn s data).hydrogens + 1 },
         Pc.wWaitH, [Event.bcast CV.waitingHydrogen])) ∧
    (s.hydrogens = 1 → s.oxygens < 1 →
      writeEnter s data none =
        ({ copyIn s data with
           hydrogens := (copyIn s data).hydrogens + 1 },
         Pc.wWaitO, [Event.bcast CV.waitingHydrogen])) := by
  have hch := copyIn_hydrogens data s
  have hco := copyIn_oxygens data s
  refine ⟨?_, ?_, ?_⟩
  · rintro ⟨h1, h2⟩
    rw [writeEnter_eq_afterCopy s data hh,
      writeAfterCopy_eq_pair _ _ (by rw [hch]; exact h1) (by rw [hco]; omega)]
  · intro h1
    rw [writeEnter_eq_afterCopy s data hh,
      writeAfterCopy_eq_waitH _ _ (by rw [hch]; omega)]
  · intro h1 h2
    rw [writeEnter_eq_afterCopy s data hh,
      writeAfterCopy_eq_waitO _ _ (by rw [hch]; omega) (by rw [hco]; omega)]

/-- A fresh module with one hydrogen already submitted and one oxygen request
registered. -/
def sPair : Shared := { initShared with hydrogens := 1, oxygens := 1 }

/-- Witness for `C5_amended_write_path` at `sPair` with the one-byte payload
`[7]`: the pairing branch fires. -/
theorem C5_amended_write_path_witness :
    (sPair.hydrogens < 2) ∧
    ((sPair.hydrogens = 1 ∧ 1 ≤ sPair.oxygens →
      writeEnter sPair [7] none =
        ({ copyIn sPair [7] with
            hydrogens := (copyIn sPair [7]).hydrogens,
            oxygens := (copyIn sPair [7]).oxygens - 1 },
         Pc.done (([7] : List Nat).length : Int) [],
         [Event.bcast CV.waitingHydrogen, Event.bcast CV.waitingMolecule,
          Event.unlock])) ∧
     (sPair.hydrogens ≠ 1 →
      writeEnter sPair [7] none =
        ({ copyIn sPair [7] with
           hydrogens := (copyIn sPair [7]).hydrogens + 1 },
         Pc.wWaitH, [Event.bcast CV.waitingHydrogen])) ∧
     (sPair.hydrogens = 1 → sPair.oxygens < 1 →
      writeEnter sPair [7] none =
        ({ copyIn sPair [7] with
           hydrogens := (copyIn sPair [7]).hydrogens + 1 },
         Pc.wWaitO, [Event.bcast CV.waitingHydrogen]))) :=
  ⟨by decide, C5_amended_write_path sPair [7] (by decide)⟩

/-- Does an event list contain any condition-variable broadcast? -/
def hasBcast (evs : List Event) : Bool :=
  evs.any fun e =>
    match e with
    | Event.bcast _ => true
    | Event.unlock => false

/-- The module state after two one-byte writes have completed their copy
phases (`hydrogens = 2`). -/
def sFull : Shared :=
  (writeEnter (writeEnter initShared [120] none).1 [121] none).1

/-- C6 counterexample: with `hydrogens = 2`, a third `writeH2O` parks on
`waitingMolecule` at its entry gate without emitting any event; cancelling it
returns `-EINTR` and unlocks, but the writer's cleanup path (lines 340-345)
performs no broadcast at all, refuting "on every exit path ... performs a
broadcast before returning". -/
theorem C6_counterexample_write_cleanup_no_broadcast :
    (threadStep sFull ⟨ThreadKind.writer [122] none, Pc.start⟩).2.1.pc
        = Pc.wGate ∧
    (threadStep sFull ⟨ThreadKind.writer [122] none, Pc.start⟩).2.2 = [] ∧
    (interruptStep sFull ⟨ThreadKind.writer [122] none, Pc.wGate⟩).2.1.pc
        = Pc.done (-EINTR) [] ∧
    (interruptStep sFull ⟨ThreadKind.writer [122] none, Pc.wGate⟩).2.2
        = [Event.unlock] ∧
    hasBcast [Event.unlock] = false := by
  decide

/-- C6 (amended): a cancelled wait makes the call return `-EINTR` and release
the mutex on both operations, but only `readH2O`'s cleanup path broadcasts
(`cond`, lines 259-266); `writeH2O`'s cleanup path (lines 340-345) unlocks
without broadcasting, whichever of its three waits was cancelled. -/
theorem C6_amended_cleanup_paths (s : Shared) (k : ThreadKind) :
    interruptStep s ⟨k, Pc.rWaitH⟩ =
      (s, ⟨k, Pc.done (-EINTR) []⟩, [Event.bcast CV.cond, Event.unlock]) ∧
    interruptStep s ⟨k, Pc.wGate⟩ =
      (s, ⟨k, Pc.done (-EINTR) []⟩, [Event.unlock]) ∧
    interruptStep s ⟨k, Pc.wWaitH⟩ =
      (s, ⟨k, Pc.done (-EINTR) []⟩, [Event.unlock]) ∧
    interruptStep s ⟨k, Pc.wWaitO⟩ =
      (s, ⟨k, Pc.done (-EINTR) []⟩, [Event.unlock]) :=
  ⟨rfl, rfl, rfl, rfl⟩

/-- C7 counterexample: a lone `readH2O(2)` on a fresh module increments
`oxygens`, parks, and is then cancelled: it returns `-EINTR`, yet
`oxygens = 1` remains — a counter increment from the cancelled call stays
visible, refuting "leaves the shared state exactly as it was ... no counter
increment from the cancelled call remains visible". -/
theorem C7_counterexample_stale_oxygen :
    (reach [ThreadKind.reader 2 none]
        [Act.run 0, Act.intr 0]).shared.oxygens = 1 ∧
    ((reach [ThreadKind.reader 2 none]
        [Act.run 0, Act.intr 0]).threads[0]?).map Thread.pc
        = some (Pc.done (-EINTR) []) ∧
    initShared.oxygens = 0 := by
  decide

/-- C7 (amended): the cancellation transition itself mutates nothing — it
returns `-EINTR` with the shared state exactly as it was at the wait and ends
by releasing the mutex — but mutations performed earlier in the same call
remain visible; in particular a reader has already incremented `oxygens`
before it first parks. -/
theorem C7_amended_intr_no_mutation (s : Shared) (u : Nat) (k : ThreadKind)
    (pc : Pc) (hh : s.hydrogens < 2)
    (hp : pc = Pc.rWaitH ∨ pc = Pc.wGate ∨ pc = Pc.wWaitH ∨ pc = Pc.wWaitO) :
    (threadStep s ⟨ThreadKind.reader u none, Pc.start⟩).1
        = { s with oxygens := s.oxygens + 1 } ∧
    (interruptStep s ⟨k, pc⟩).1 = s ∧
    (interruptStep s ⟨k, pc⟩).2.1.pc = Pc.done (-EINTR) [] ∧
    (interruptStep s ⟨k, pc⟩).2.2.getLast? = some Event.unlock := by
  refine ⟨?_, interruptStep_shared s ⟨k, pc⟩, ?_, ?_⟩
  · show (readEnter s u none).1 = _
    unfold readEnter
    rw [if_pos (show ({ s with oxygens := s.oxygens + 1 } :
        Shared).hydrogens < 2 by simpa using hh)]
  · rcases hp with rfl | rfl | rfl | rfl <;> rfl
  · rcases hp with rfl | rfl | rfl | rfl <;> rfl

/-- Witness for `C7_amended_intr_no_mutation`: a fresh module, a two-byte
read budget, and a reader thread parked on `waitingHydrogen`. -/
theorem C7_amended_intr_no_mutation_witness :
    (initShared.hydrogens < 2 ∧
      (Pc.rWaitH = Pc.rWaitH ∨ Pc.rWaitH = Pc.wGate ∨
       Pc.rWaitH = Pc.wWaitH ∨ Pc.rWaitH = Pc.wWaitO)) ∧
    ((threadStep initShared ⟨ThreadKind.reader 2 none, Pc.start⟩).1
        = { initShared with oxygens := initShared.oxygens + 1 } ∧
     (interruptStep initShared
        ⟨ThreadKind.reader 2 none, Pc.rWaitH⟩).1 = initShared ∧
     (interruptStep initShared
        ⟨ThreadKind.reader 2 none, Pc.rWaitH⟩).2.1.pc
        = Pc.done (-EINTR) [] ∧
     (interruptStep initShared
        ⟨ThreadKind.reader 2 none, Pc.rWaitH⟩).2.2.getLast?
        = some Event.unlock) :=
  ⟨⟨by decide, by decide⟩,
   C7_amended_intr_no_mutation initShared 2 (ThreadKind.reader 2 none)
     Pc.rWaitH (by decide) (by decide)⟩

/-- C8 (code divergence): in the run `submitHydrogen('x')`,
`submitHydrogen('y')`, `requestMolecule(2)`, the request does return `"xy"`,
but afterwards `hydrogens = 1` and `oxygens = 0` — not `0` and `0` — and the
second writer stays parked on `cond` forever: only one writer passes the
single-decrement pairing step. -/
theorem C8_scenario_final_counters :
    ((reach ksMolecule actsAll).threads[2]?).map Thread.pc
        = some (Pc.done 2 [120, 121]) ∧
    (reach ksMolecule actsAll).shared.hydrogens = 1 ∧
    (reach ksMolecule actsAll).shared.oxygens = 0 ∧
    ((reach ksMolecule actsAll).threads[1]?).map Thread.pc
        = some Pc.wWaitO := by
  decide

/-- C10: a zero-byte `writeH2O` runs its empty copy loop (buffer and `size`
untouched), still increments `hydrogens`, and broadcasts `waitingHydrogen` —
it counts as a full hydrogen particle — so two zero-byte writes satisfy the
reader's `hydrogens >= 2` gate and let `readH2O(5)` return 0 bytes. -/
theorem C10_zero_byte_write (s : Shared) (f : Option Nat)
    (hh : s.hydrogens < 2) (ho : s.oxygens < 1) :
    (writeEnter s [] f).1.hydrogens = s.hydrogens + 1 ∧
    (writeEnter s [] f).1.size = s.size ∧
    (writeEnter s [] f).1.buffer = s.buffer ∧
    (writeEnter s [] f).2.2.head? = some (Event.bcast CV.waitingHydrogen) ∧
    ((reach ksZero [Act.run 0, Act.run 1, Act.run 2]).threads[2]?).map
        Thread.pc = some (Pc.done 0 []) ∧
    (reach ksZero [Act.run 0]).shared.hydrogens = 1 ∧
    (reach ksZero [Act.run 0]).shared.size = 0 := by
  have hgate : writeEnter s [] f = writeAfterCopy s 0 := by
    unfold writeEnter
    rw [if_neg (by omega)]
    rcases f with _ | k
    · rfl
    · rw [writeCopyPhase, if_neg (by simp)]
      rfl
  by_cases h2 : s.hydrogens + 1 < 2
  · rw [hgate, writeAfterCopy_eq_waitH s 0 h2]
    exact ⟨rfl, rfl, rfl, rfl, by decide, by decide, by decide⟩
  · rw [hgate, writeAfterCopy_eq_waitO s 0 h2 ho]
    exact ⟨rfl, rfl, rfl, rfl, by decide, by decide, by decide⟩

/-- Witness for `C10_zero_byte_write` on a fresh module with a fully valid
(vacuous) user buffer. -/
theorem C10_zero_byte_write_witness :
    (initShared.hydrogens < 2 ∧ initShared.oxygens < 1) ∧
    ((writeEnter initShared [] none).1.hydrogens
        = initShared.hydrogens + 1 ∧
     (writeEnter initShared [] none).1.size = initShared.size ∧
     (writeEnter initShared [] none).1.buffer = initShared.buffer ∧
     (writeEnter initShared [] none).2.2.head?
        = some (Event.bcast CV.waitingHydrogen) ∧
     ((reach ksZero [Act.run 0, Act.run 1, Act.run 2]).threads[2]?).map
        Thread.pc = some (Pc.done 0 []) ∧
     (reach ksZero [Act.run 0]).shared.hydrogens = 1 ∧
     (reach ksZero [Act.run 0]).shared.size = 0) :=
  ⟨⟨by decide, by decide⟩,
   C10_zero_byte_write initShared none (by decide) (by decide)⟩

end H2o
